import Mathlib

/-!
Shallow embedding of `src/streamlit_app.py` (S&P 500 stock tracker).

The embedding models:
* `retry_with_backoff` (lines 89-101): the exponential-backoff retry loop.
  A Python zero-argument operation that may raise is modelled as a function
  from the attempt index to `Except String α` (the `String` is the exception
  message, which is all the retry logic inspects).  The randomness of
  `random.uniform(0, 1)` is modelled by an explicit jitter function
  `ℕ → ℚ`, constrained by hypotheses where a claim needs `0 ≤ jitter < 1`.
  The function returns the outcome together with the observable trace:
  the list of sleep durations and the number of times the operation ran.
* `get_stock_data` (lines 135-186): the pure metrics computation performed
  on a fetched price history (a list of bars carrying `High`/`Close`).
* `get_regime_filter` (lines 104-133): regime classification from the
  reference index's closes, including the `try/except` fallback.
* `get_sp500_tickers` (lines 76-87): symbol normalization and the
  hardcoded fallback list.
* the sort in `main` (line 299): descending sort on the raw numeric
  `_twenty_week_roc_num` column.

Python floats are modelled as rationals `ℚ` (note `q / 0 = 0` in `ℚ`,
which only matters for degenerate zero prices).
-/

namespace SP500

/-- Case-insensitive substring test on character lists:
`isPrefOf p l` holds when `p` is an initial segment of `l`. -/
def isPrefOf : List Char → List Char → Bool
  | [], _ => true
  | _ :: _, [] => false
  | a :: as, b :: bs => a == b && isPrefOf as bs

/-- `isSubstrOf p l` : `p` occurs contiguously inside `l`
(models Python's `in` on strings). -/
def isSubstrOf (p : List Char) : List Char → Bool
  | [] => isPrefOf p []
  | b :: bs => isPrefOf p (b :: bs) || isSubstrOf p bs

/-- Line 95: `"rate limit" in str(e).lower() or "too many requests" in str(e).lower()`. -/
def rateLimitSig (msg : String) : Bool :=
  let l := msg.toList.map Char.toLower
  isSubstrOf ("rate limit".toList) l || isSubstrOf ("too many requests".toList) l

/-- The result of one run of `retry_with_backoff`:
the value returned by `func()`, a propagated exception (line 100 `raise e`),
or the final `return None` at line 101. -/
inductive Outcome (α : Type) where
  | ok (a : α)
  | raised (e : String)
  | noRes
deriving DecidableEq

/-- Observable behaviour of a `retry_with_backoff` run: its outcome, the
sleep durations in order (line 98 `time.sleep(delay)`), and how many times
the operation was invoked (line 93 `func()`). -/
structure RetryTrace (α : Type) where
  outcome : Outcome α
  delays : List ℚ
  calls : ℕ
deriving DecidableEq

/-- The loop body of `retry_with_backoff` (lines 91-100), with `attempt`
the current index of `range(max_retries)` and `remaining` the number of
iterations the range still has (so `attempt + remaining = max_retries`
when entered from the top).  When the range is exhausted the function
falls through to line 101 `return None`. -/
def retryLoop (op : ℕ → Except String α) (max_retries : ℕ) (base_delay : ℚ)
    (jitter : ℕ → ℚ) : ℕ → ℕ → RetryTrace α
  | _, 0 => ⟨Outcome.noRes, [], 0⟩
  | attempt, remaining + 1 =>
    match op attempt with
    | Except.ok a => ⟨Outcome.ok a, [], 1⟩
    | Except.error e =>
      if rateLimitSig e && decide (attempt < max_retries - 1) then
        let delay := base_delay * 2 ^ attempt + jitter attempt
        let rest := retryLoop op max_retries base_delay jitter (attempt + 1) remaining
        ⟨rest.outcome, delay :: rest.delays, rest.calls + 1⟩
      else ⟨Outcome.raised e, [], 1⟩

/-- `retry_with_backoff(func, max_retries, base_delay)` (lines 89-101). -/
def retry_with_backoff (op : ℕ → Except String α) (max_retries : ℕ)
    (base_delay : ℚ) (jitter : ℕ → ℚ) : RetryTrace α :=
  retryLoop op max_retries base_delay jitter 0 max_retries

/-- The sleep durations produced by `k` consecutive backoff sleeps starting
at attempt index `a`: line 97 `base_delay * (2 ** attempt) + random.uniform(0, 1)`. -/
def expectedDelays (base_delay : ℚ) (jitter : ℕ → ℚ) : ℕ → ℕ → List ℚ
  | _, 0 => []
  | a, k + 1 => (base_delay * 2 ^ a + jitter a) :: expectedDelays base_delay jitter (a + 1) k

/-- One row of the fetched price history: only the `High` and `Close`
columns are read by `get_stock_data`. -/
structure Bar where
  high : ℚ
  close : ℚ
deriving DecidableEq

/-- Placeholder bar for total list indexing (indices are always in range
where it is used). -/
def dBar : Bar := ⟨0, 0⟩

/-- Pandas `series.max()` over the `High` column of a nonempty frame
(line 166 `twenty_week_data['High'].max()`). -/
def maxHigh : List Bar → ℚ
  | [] => 0
  | b :: bs => bs.foldl (fun m x => max m x.high) b.high

/-- Two-decimal fixed-point rendering of a rational, modelling Python's
`:.2f` format: the value rounded to hundredths, printed with two
fractional digits. -/
def fmt2 (q : ℚ) : String :=
  let n : ℤ := round (q * 100)
  let sign := if n < 0 then "-" else ""
  let a := n.natAbs
  let fp := a % 100
  sign ++ toString (a / 100) ++ "." ++ (if fp < 10 then "0" else "") ++ toString fp

/-- Python's `:+.2f` format: like `fmt2` but with an explicit leading `+`
on non-negative values. -/
def fmtSigned2 (q : ℚ) : String :=
  if round (q * 100) < (0 : ℤ) then fmt2 q else "+" ++ fmt2 q

/-- The market regime labels returned by `get_regime_filter`. -/
inductive Regime where
  | UP
  | DOWN
  | FLAT
  | UNKNOWN
deriving DecidableEq

/-- The dict built at lines 174-184: display strings plus the raw numeric
helper columns `_price_change_num` and `_twenty_week_roc_num`. -/
structure StockRow where
  company : String
  ticker : String
  currentPriceStr : String
  priceChangeStr : String
  twHighStr : String
  rocStr : String
  regime : Option Regime
  priceChangeNum : ℚ
  rocNum : ℚ
deriving DecidableEq

/-- Line 160: `current_price = hist['Close'].iloc[-1]`. -/
def current_price (hist : List Bar) : ℚ :=
  (hist.getD (hist.length - 1) dBar).close

/-- Line 161: `prev_close = hist['Close'].iloc[-2] if len(hist) >= 2 else current_price`. -/
def prev_close (hist : List Bar) : ℚ :=
  if 2 ≤ hist.length then (hist.getD (hist.length - 2) dBar).close
  else current_price hist

/-- Line 162: `pct_change = ((current_price - prev_close) / prev_close) * 100`. -/
def pct_change (hist : List Bar) : ℚ :=
  (current_price hist - prev_close hist) / prev_close hist * 100

/-- Line 165: `twenty_week_data = hist.tail(min(100, len(hist)))` — the most
recent `min(100, len(hist))` bars. -/
def twenty_week_data (hist : List Bar) : List Bar :=
  hist.drop (hist.length - min 100 hist.length)

/-- Line 166: `twenty_week_high = twenty_week_data['High'].max()`. -/
def twenty_week_high (hist : List Bar) : ℚ :=
  maxHigh (twenty_week_data hist)

/-- Lines 168-172: the 20-week rate of change, computed only when the
trailing window has at least 50 bars, else `0`. -/
def twenty_week_roc (hist : List Bar) : ℚ :=
  if 50 ≤ (twenty_week_data hist).length then
    let twenty_week_old_price := ((twenty_week_data hist).headD dBar).close
    (current_price hist - twenty_week_old_price) / twenty_week_old_price * 100
  else 0

/-- `get_stock_data(ticker)` (lines 135-186), with the network fetch
factored out: `fetched` is what `retry_with_backoff(_fetch_stock_data, ...)`
delivered (`none` models both an empty history, which `_fetch_stock_data`
maps to `(None, None)`, and the `except` path that returns `None`), and
`company_name` is the metadata value (which falls back to the ticker inside
`_fetch_stock_data`, never raising). -/
def get_stock_data (ticker company_name : String) (fetched : Option (List Bar)) :
    Option StockRow :=
  match fetched with
  | none => none
  | some hist =>
    if hist.isEmpty then none
    else
      some
        { company := company_name
          ticker := ticker
          currentPriceStr := "$" ++ fmt2 (current_price hist)
          priceChangeStr := fmtSigned2 (pct_change hist) ++ "%"
          twHighStr := "$" ++ fmt2 (twenty_week_high hist)
          rocStr := fmtSigned2 (twenty_week_roc hist) ++ "%"
          regime := none
          priceChangeNum := pct_change hist
          rocNum := twenty_week_roc hist }

/-- `get_regime_filter()` (lines 104-133), with the fetch factored out:
the argument is the outcome of `retry_with_backoff(_get_spy_data)` on the
reference index, carrying the `Close` column.  `Outcome.raised` feeds the
`except` clause at line 131, `Outcome.noRes` the `hist is None` test at
line 113; both produce `UNKNOWN`. -/
def get_regime_filter (fetchResult : Outcome (List ℚ)) : Regime :=
  match fetchResult with
  | Outcome.raised _ => Regime.UNKNOWN
  | Outcome.noRes => Regime.UNKNOWN
  | Outcome.ok closes =>
    if closes.length < 2 then Regime.UNKNOWN
    else
      let current_price := closes.getD (closes.length - 1) 0
      let previous_price := closes.getD (closes.length - 2) 0
      let daily_change := (current_price - previous_price) / previous_price * 100
      if daily_change > 1 / 10 then Regime.UP
      else if daily_change < -(1 / 10) then Regime.DOWN
      else Regime.FLAT

/-- Python `ticker.replace('.', '-')` at line 83. -/
def normalizeTicker (s : String) : String :=
  String.mk (s.toList.map fun c => if c = '.' then '-' else c)

/-- The hardcoded fallback universe at line 87. -/
def fallback_tickers : List String :=
  ["AAPL", "MSFT", "GOOGL", "AMZN", "NVDA", "META", "TSLA", "BRK-B", "UNH", "JNJ"]

/-- `get_sp500_tickers()` (lines 76-87): `scraped` is the result of the
Wikipedia table scrape (`Except` models the `try/except`). -/
def get_sp500_tickers (scraped : Except String (List String)) : List String :=
  match scraped with
  | Except.ok tickers => tickers.map normalizeTicker
  | Except.error _ => fallback_tickers

/-- Line 299: `df.sort_values('_twenty_week_roc_num', ascending=False)` —
sort the collected rows descending by the raw numeric rate-of-change. -/
def sortByRoc (rows : List StockRow) : List StockRow :=
  rows.mergeSort fun a b => decide (b.rocNum ≤ a.rocNum)

/-! ### Helper lemmas about the retry loop -/

lemma retryLoop_calls_le (op : ℕ → Except String α) (mr : ℕ) (bd : ℚ) (j : ℕ → ℚ) :
    ∀ r a, (retryLoop op mr bd j a r).calls ≤ r := by
  intro r
  induction r with
  | zero => intro a; simp [retryLoop]
  | succ s ih =>
    intro a
    simp only [retryLoop]
    cases hop : op a with
    | ok v => simp
    | error e =>
      cases hg : rateLimitSig e && decide (a < mr - 1) with
      | false => simp [hg]
      | true => simpa [hg] using ih (a + 1)

lemma expectedDelays_length (bd : ℚ) (j : ℕ → ℚ) :
    ∀ k a, (expectedDelays bd j a k).length = k := by
  intro k
  induction k with
  | zero => intro a; rfl
  | succ n ih => intro a; simp [expectedDelays, ih]

lemma expectedDelays_getD (bd : ℚ) (j : ℕ → ℚ) :
    ∀ k a i, i < k →
      (expectedDelays bd j a k).getD i 0 = bd * 2 ^ (a + i) + j (a + i) := by
  intro k
  induction k with
  | zero => intro a i hi; omega
  | succ n ih =>
    intro a i hi
    cases i with
    | zero => simp [expectedDelays]
    | succ m =>
      have := ih (a + 1) m (by omega)
      simpa [expectedDelays, Nat.add_assoc, Nat.add_comm 1 m] using this

lemma retryLoop_run (op : ℕ → Except String α) (mr : ℕ) (bd : ℚ) (j : ℕ → ℚ)
    (em : ℕ → String) (v : α) :
    ∀ k a,
      (∀ i, i < k → op (a + i) = Except.error (em (a + i)) ∧ rateLimitSig (em (a + i)) = true) →
      op (a + k) = Except.ok v → a + k < mr →
      retryLoop op mr bd j a (mr - a) = ⟨Outcome.ok v, expectedDelays bd j a k, k + 1⟩ := by
  intro k
  induction k with
  | zero =>
    intro a _ hok hlt
    obtain ⟨s, hs⟩ : ∃ s, mr - a = s + 1 := ⟨mr - a - 1, by omega⟩
    rw [hs]
    rw [Nat.add_zero] at hok
    simp [retryLoop, hok, expectedDelays]
  | succ n ih =>
    intro a herr hok hlt
    obtain ⟨s, hs⟩ : ∃ s, mr - a = s + 1 := ⟨mr - a - 1, by omega⟩
    rw [hs]
    obtain ⟨he, hsig⟩ := herr 0 (Nat.succ_pos n)
    rw [Nat.add_zero] at he hsig
    have hlt1 : a < mr - 1 := by omega
    have hs1 : s = mr - (a + 1) := by omega
    have hrest := ih (a + 1)
      (fun i hi => by
        have := herr (i + 1) (by omega)
        simpa [Nat.add_assoc, Nat.add_comm 1 i] using this)
      (by simpa [Nat.add_assoc, Nat.add_comm 1 n] using hok)
      (by omega)
    simp [retryLoop, he, hsig, hlt1, hs1, hrest, expectedDelays]

lemma retryLoop_succ (op : ℕ → Except String α) (mr : ℕ) (bd : ℚ) (j : ℕ → ℚ)
    (attempt s : ℕ) :
    retryLoop op mr bd j attempt (s + 1) =
      match op attempt with
      | Except.ok a => ⟨Outcome.ok a, [], 1⟩
      | Except.error e =>
        if rateLimitSig e && decide (attempt < mr - 1) then
          let rest := retryLoop op mr bd j (attempt + 1) s
          ⟨rest.outcome, (bd * 2 ^ attempt + j attempt) :: rest.delays, rest.calls + 1⟩
        else ⟨Outcome.raised e, [], 1⟩ := rfl

lemma retryLoop_allfail (op : ℕ → Except String α) (mr : ℕ) (bd : ℚ) (j : ℕ → ℚ)
    (em : ℕ → String)
    (herr : ∀ i, op i = Except.error (em i) ∧ rateLimitSig (em i) = true) :
    ∀ r a, a + r = mr → 0 < r →
      retryLoop op mr bd j a r =
        ⟨Outcome.raised (em (mr - 1)), expectedDelays bd j a (r - 1), r⟩ := by
  intro r
  induction r with
  | zero => intro a _ h0; omega
  | succ s ih =>
    intro a hinv _
    obtain ⟨he, hsig⟩ := herr a
    cases s with
    | zero =>
      have ha : a = mr - 1 := by omega
      have hng : ¬ a < mr - 1 := by omega
      rw [retryLoop_succ, he, ha]
      simp [hng, expectedDelays]
    | succ t =>
      have hlt1 : a < mr - 1 := by omega
      have hrest := ih (a + 1) (by omega) (Nat.succ_pos t)
      rw [retryLoop_succ, he]
      simp [hsig, hlt1, hrest, expectedDelays]

lemma retryLoop_ne_noRes (op : ℕ → Except String α) (mr : ℕ) (bd : ℚ) (j : ℕ → ℚ) :
    ∀ r a, a + r = mr → 0 < r →
      (retryLoop op mr bd j a r).outcome ≠ Outcome.noRes := by
  intro r
  induction r with
  | zero => intro a _ h0; omega
  | succ s ih =>
    intro a hinv _
    simp only [retryLoop]
    cases hop : op a with
    | ok v => simp
    | error e =>
      cases hg : rateLimitSig e && decide (a < mr - 1) with
      | false => simp [hg]
      | true =>
        have hs : 0 < s := by
          have hg2 := hg
          simp only [Bool.and_eq_true, decide_eq_true_eq] at hg2
          omega
        simpa [hg] using ih (a + 1) (by omega) hs

lemma retryLoop_ok_src (op : ℕ → Except String α) (mr : ℕ) (bd : ℚ) (j : ℕ → ℚ) (v : α) :
    ∀ r a, (retryLoop op mr bd j a r).outcome = Outcome.ok v →
      ∃ i, op i = Except.ok v := by
  intro r
  induction r with
  | zero => intro a h; simp [retryLoop] at h
  | succ s ih =>
    intro a h
    rw [retryLoop_succ] at h
    cases hop : op a with
    | ok w =>
      rw [hop] at h
      simp at h
      exact ⟨a, by rw [hop, h]⟩
    | error e =>
      rw [hop] at h
      cases hg : rateLimitSig e && decide (a < mr - 1) with
      | false => simp [hg] at h
      | true =>
        simp only [hg, if_true] at h
        exact ih (a + 1) h

/-! ### Claim theorems -/

/-- C1: an operation whose error message carries no rate-limit signature
(no "rate limit" / "too many requests", case-insensitive) makes
`retry_with_backoff` propagate that error on the first attempt: the
operation runs exactly once and no sleep occurs. -/
theorem retry_fail_fast (op : ℕ → Except String α) (mr : ℕ) (bd : ℚ) (j : ℕ → ℚ)
    (e : String)
    (hop : op 0 = Except.error e) (hsig : rateLimitSig e = false) (hmr : 1 ≤ mr) :
    retry_with_backoff op mr bd j = ⟨Outcome.raised e, [], 1⟩ := by
  obtain ⟨s, rfl⟩ : ∃ s, mr = s + 1 := ⟨mr - 1, by omega⟩
  unfold retry_with_backoff
  rw [retryLoop_succ, hop]
  simp [hsig]

/-- Witness for C1 at a concrete non-transient error. -/
theorem retry_fail_fast_witness :
    retry_with_backoff (fun _ => (Except.error "connection refused" : Except String ℕ))
        3 1 (fun _ => 0) =
      ⟨Outcome.raised "connection refused", [], 1⟩ :=
  retry_fail_fast (fun _ => Except.error "connection refused") 3 1 (fun _ => 0)
    "connection refused" rfl (by decide) (by decide)

/-- C2: an operation that raises a rate-limit-signatured error on every
attempt makes `retry_with_backoff` with `max_retries = 3` invoke it exactly
3 times and then re-raise the last error; and for every `max_retries` the
operation is invoked at most `max_retries` times. -/
theorem retry_exhaustion (op : ℕ → Except String α) (bd : ℚ) (j : ℕ → ℚ)
    (em : ℕ → String)
    (herr : ∀ i, op i = Except.error (em i) ∧ rateLimitSig (em i) = true) :
    retry_with_backoff op 3 bd j =
      ⟨Outcome.raised (em 2), expectedDelays bd j 0 2, 3⟩ ∧
    (retry_with_backoff op 3 bd j).calls = 3 ∧
    (∀ mr, (retry_with_backoff op mr bd j).calls ≤ mr) := by
  have h3 := retryLoop_allfail op 3 bd j em herr 3 0 rfl (by omega)
  refine ⟨by simpa [retry_with_backoff] using h3, ?_, ?_⟩
  · rw [show retry_with_backoff op 3 bd j = retryLoop op 3 bd j 0 3 from rfl, h3]
  · intro mr
    exact retryLoop_calls_le op mr bd j mr 0

/-- Witness for C2 at a concrete always-rate-limited operation. -/
theorem retry_exhaustion_witness :
    retry_with_backoff (fun _ => (Except.error "rate limit" : Except String ℕ))
        3 1 (fun _ => 0) =
      ⟨Outcome.raised "rate limit", expectedDelays 1 (fun _ => 0) 0 2, 3⟩ ∧
    (retry_with_backoff (fun _ => (Except.error "rate limit" : Except String ℕ))
        3 1 (fun _ => 0)).calls = 3 ∧
    (∀ mr, (retry_with_backoff (fun _ => (Except.error "rate limit" : Except String ℕ))
        mr 1 (fun _ => 0)).calls ≤ mr) :=
  retry_exhaustion (fun _ => Except.error "rate limit") 1 (fun _ => 0)
    (fun _ => "rate limit") (fun _ => ⟨rfl, rfl⟩)

/-- C3: an operation that raises rate-limit-signatured errors on its first
`N - 1` attempts and succeeds on attempt `N` (with `N ≤ max_retries`) makes
`retry_with_backoff` return the success value after exactly `N - 1` sleeps,
the `i`-th sleep lasting `base_delay * 2 ^ i + jitter i` seconds, hence at
least `base_delay * 2 ^ i` when the jitter is drawn from `[0, 1)`. -/
theorem retry_eventual_success (op : ℕ → Except String α) (mr N : ℕ) (bd : ℚ)
    (j : ℕ → ℚ) (em : ℕ → String) (v : α)
    (hN : 1 ≤ N) (hmr : N ≤ mr)
    (herr : ∀ i, i < N - 1 → op i = Except.error (em i) ∧ rateLimitSig (em i) = true)
    (hok : op (N - 1) = Except.ok v)
    (hj : ∀ i, 0 ≤ j i ∧ j i < 1) :
    retry_with_backoff op mr bd j = ⟨Outcome.ok v, expectedDelays bd j 0 (N - 1), N⟩ ∧
    (retry_with_backoff op mr bd j).delays.length = N - 1 ∧
    (∀ i, i < N - 1 →
      (retry_with_backoff op mr bd j).delays.getD i 0 = bd * 2 ^ i + j i ∧
      bd * 2 ^ i ≤ (retry_with_backoff op mr bd j).delays.getD i 0) := by
  have hrun := retryLoop_run op mr bd j em v (N - 1) 0
    (fun i hi => by simpa using herr i hi)
    (by simpa using hok) (by omega)
  have hmain : retry_with_backoff op mr bd j =
      ⟨Outcome.ok v, expectedDelays bd j 0 (N - 1), N⟩ := by
    rw [show retry_with_backoff op mr bd j = retryLoop op mr bd j 0 (mr - 0) by
      simp [retry_with_backoff]]
    rw [hrun]
    congr 1
    omega
  refine ⟨hmain, ?_, ?_⟩
  · rw [hmain]
    exact expectedDelays_length bd j (N - 1) 0
  · intro i hi
    have hget : (retry_with_backoff op mr bd j).delays.getD i 0 = bd * 2 ^ i + j i := by
      rw [hmain]
      simpa using expectedDelays_getD bd j (N - 1) 0 i hi
    exact ⟨hget, by rw [hget]; exact le_add_of_nonneg_right (hj i).1⟩

/-- Witness for C3: rate-limited twice, succeeds on the third attempt,
with `max_retries = 3`, `base_delay = 1`, jitter constantly `1/2`. -/
theorem retry_eventual_success_witness :
    retry_with_backoff (fun i => if i < 2 then Except.error "rate limit" else Except.ok 7)
        3 1 (fun _ => 1 / 2) =
      ⟨Outcome.ok 7, expectedDelays 1 (fun _ => 1 / 2) 0 2, 3⟩ ∧
    (retry_with_backoff (fun i => if i < 2 then Except.error "rate limit" else Except.ok 7)
        3 1 (fun _ => 1 / 2)).delays.length = 2 :=
  have h := retry_eventual_success
    (fun i => if i < 2 then Except.error "rate limit" else Except.ok 7)
    3 3 1 (fun _ => 1 / 2) (fun _ => "rate limit") 7
    (by decide) (by decide)
    (fun i hi => ⟨by simp [show i < 2 from hi], rfl⟩)
    rfl (fun _ => by norm_num)
  ⟨h.1, h.2.1⟩

/-- C4: with `max_retries ≥ 1` the run's outcome is never the defensive
final `return None`: it is a value the operation produced or a raised
error.  The `return None` line is reached exactly in the out-of-contract
case `max_retries = 0`, where the operation is never invoked. -/
theorem retry_none_unreachable (op : ℕ → Except String α) (mr : ℕ) (bd : ℚ)
    (j : ℕ → ℚ) :
    (1 ≤ mr → (retry_with_backoff op mr bd j).outcome ≠ Outcome.noRes) ∧
    (∀ a, (retry_with_backoff op mr bd j).outcome = Outcome.ok a →
      ∃ i, op i = Except.ok a) ∧
    retry_with_backoff op 0 bd j = ⟨Outcome.noRes, [], 0⟩ := by
  refine ⟨?_, ?_, rfl⟩
  · intro hmr
    exact retryLoop_ne_noRes op mr bd j mr 0 (by omega) (by omega)
  · intro a h
    exact retryLoop_ok_src op mr bd j a mr 0 h

/-- Witness for C4 at a concrete operation. -/
theorem retry_none_unreachable_witness :
    (retry_with_backoff (fun _ => (Except.ok 42 : Except String ℕ))
        1 1 (fun _ => 0)).outcome ≠ Outcome.noRes ∧
    retry_with_backoff (fun _ => (Except.ok 42 : Except String ℕ))
        0 1 (fun _ => 0) = ⟨Outcome.noRes, [], 0⟩ :=
  ⟨(retry_none_unreachable (fun _ => Except.ok 42) 1 1 (fun _ => 0)).1 (by decide),
   (retry_none_unreachable (fun _ => Except.ok 42) 0 1 (fun _ => 0)).2.2⟩

/-! ### Helper lemmas about the window maximum -/

lemma le_foldl_maxHigh (l : List Bar) :
    ∀ m : ℚ, m ≤ l.foldl (fun m x => max m x.high) m := by
  induction l with
  | nil => intro m; exact le_refl m
  | cons x xs ih =>
    intro m
    exact le_trans (le_max_left m x.high) (ih (max m x.high))

lemma mem_le_foldl_maxHigh (l : List Bar) :
    ∀ (m : ℚ) (b : Bar), b ∈ l → b.high ≤ l.foldl (fun m x => max m x.high) m := by
  induction l with
  | nil => intro m b hb; simp at hb
  | cons x xs ih =>
    intro m b hb
    rcases List.mem_cons.mp hb with rfl | hb
    · exact le_trans (le_max_right m b.high) (le_foldl_maxHigh xs (max m b.high))
    · exact ih (max m x.high) b hb

lemma foldl_maxHigh_mem (l : List Bar) :
    ∀ m : ℚ, l.foldl (fun m x => max m x.high) m = m ∨
      l.foldl (fun m x => max m x.high) m ∈ l.map Bar.high := by
  induction l with
  | nil => intro m; exact Or.inl rfl
  | cons x xs ih =>
    intro m
    rw [List.foldl_cons]
    rcases ih (max m x.high) with h | h
    · rcases max_choice m x.high with hm | hm
      · exact Or.inl (by rw [h, hm])
      · right
        rw [h, hm, List.map_cons]
        exact List.mem_cons_self _ _
    · right
      rw [List.map_cons]
      exact List.mem_cons_of_mem _ h

lemma le_maxHigh (l : List Bar) (b : Bar) (hb : b ∈ l) : b.high ≤ maxHigh l := by
  cases l with
  | nil => simp at hb
  | cons x xs =>
    rcases List.mem_cons.mp hb with rfl | hb
    · exact le_foldl_maxHigh xs b.high
    · exact mem_le_foldl_maxHigh xs x.high b hb

lemma maxHigh_mem (l : List Bar) (hl : l ≠ []) : maxHigh l ∈ l.map Bar.high := by
  cases l with
  | nil => exact absurd rfl hl
  | cons x xs =>
    rcases foldl_maxHigh_mem xs x.high with h | h
    · exact List.mem_cons.mpr (Or.inl (by rw [maxHigh, h]))
    · exact List.mem_cons_of_mem _ h

lemma get_stock_data_some (ticker cn : String) (hist : List Bar) (hne : hist ≠ []) :
    get_stock_data ticker cn (some hist) =
      some
        { company := cn
          ticker := ticker
          currentPriceStr := "$" ++ fmt2 (current_price hist)
          priceChangeStr := fmtSigned2 (pct_change hist) ++ "%"
          twHighStr := "$" ++ fmt2 (twenty_week_high hist)
          rocStr := fmtSigned2 (twenty_week_roc hist) ++ "%"
          regime := none
          priceChangeNum := pct_change hist
          rocNum := twenty_week_roc hist } := by
  simp [get_stock_data, List.isEmpty_iff, hne]

lemma twenty_week_data_length (hist : List Bar) :
    (twenty_week_data hist).length = min 100 hist.length := by
  have hm : min 100 hist.length ≤ hist.length := Nat.min_le_right 100 hist.length
  simp only [twenty_week_data, List.length_drop]
  omega

lemma twenty_week_data_ne_nil (hist : List Bar) (hne : hist ≠ []) :
    twenty_week_data hist ≠ [] := by
  have hlen : 0 < hist.length := List.length_pos.mpr hne
  have : 0 < (twenty_week_data hist).length := by
    rw [twenty_week_data_length]
    omega
  exact List.ne_nil_of_length_pos this

/-- C5: an absent or empty fetched history makes `get_stock_data` return
`none`; with at least 2 bars the daily percent change is
`(close[-1] - close[-2]) / close[-2] * 100`; with exactly 1 bar the
previous close is taken equal to the current price and the daily percent
change is `0`. -/
theorem stock_data_daily_change (ticker cn : String) :
    get_stock_data ticker cn none = none ∧
    get_stock_data ticker cn (some []) = none ∧
    (∀ hist : List Bar, 2 ≤ hist.length →
      ∃ row, get_stock_data ticker cn (some hist) = some row ∧
        row.priceChangeNum =
          ((hist.getD (hist.length - 1) dBar).close -
            (hist.getD (hist.length - 2) dBar).close) /
            (hist.getD (hist.length - 2) dBar).close * 100) ∧
    (∀ b : Bar, ∃ row, get_stock_data ticker cn (some [b]) = some row ∧
      prev_close [b] = current_price [b] ∧ row.priceChangeNum = 0) := by
  refine ⟨rfl, rfl, ?_, ?_⟩
  · intro hist h2
    have hne : hist ≠ [] := by
      intro h
      rw [h] at h2
      simp at h2
    refine ⟨_, get_stock_data_some ticker cn hist hne, ?_⟩
    simp only [pct_change, prev_close, current_price, if_pos h2]
  · intro b
    refine ⟨_, get_stock_data_some ticker cn [b] (by simp), ?_, ?_⟩
    · simp [prev_close]
    · simp [pct_change, prev_close]

/-- Witness for C5 at a two-bar and a one-bar history. -/
theorem stock_data_daily_change_witness :
    (∃ row, get_stock_data "AAPL" "Apple Inc." (some [⟨101, 100⟩, ⟨106, 105⟩]) = some row ∧
      row.priceChangeNum = 5) ∧
    (∃ row, get_stock_data "AAPL" "Apple Inc." (some [⟨101, 100⟩]) = some row ∧
      row.priceChangeNum = 0) := by
  constructor
  · obtain ⟨row, h1, h2⟩ :=
      (stock_data_daily_change "AAPL" "Apple Inc.").2.2.1 [⟨101, 100⟩, ⟨106, 105⟩]
        (by decide)
    refine ⟨row, h1, ?_⟩
    rw [h2]
    norm_num [List.getD, dBar]
  · obtain ⟨row, h1, _, h2⟩ :=
      (stock_data_daily_change "AAPL" "Apple Inc.").2.2.2 ⟨101, 100⟩
    exact ⟨row, h1, h2⟩

/-- C6: for a non-empty history the trailing window is the most recent
`min(100, len)` bars (a suffix of the history of that length); the window
high is the maximum of the `high` values over that window; the rate of
change equals `(current - oldestCloseInWindow) / oldestCloseInWindow * 100`
when the window has at least 50 bars, and `0` when it is shorter. -/
theorem stock_data_window (ticker cn : String) (hist : List Bar) (hne : hist ≠ []) :
    ∃ row, get_stock_data ticker cn (some hist) = some row ∧
      (twenty_week_data hist).length = min 100 hist.length ∧
      (∃ pre, hist = pre ++ twenty_week_data hist) ∧
      (∀ b ∈ twenty_week_data hist, b.high ≤ twenty_week_high hist) ∧
      twenty_week_high hist ∈ (twenty_week_data hist).map Bar.high ∧
      row.twHighStr = "$" ++ fmt2 (twenty_week_high hist) ∧
      (50 ≤ (twenty_week_data hist).length →
        row.rocNum =
          (current_price hist - ((twenty_week_data hist).headD dBar).close) /
            ((twenty_week_data hist).headD dBar).close * 100) ∧
      ((twenty_week_data hist).length < 50 → row.rocNum = 0) := by
  refine ⟨_, get_stock_data_some ticker cn hist hne,
    twenty_week_data_length hist,
    ⟨hist.take (hist.length - min 100 hist.length),
      (List.take_append_drop _ _).symm⟩,
    fun b hb => le_maxHigh _ b hb,
    maxHigh_mem _ (twenty_week_data_ne_nil hist hne),
    rfl, ?_, ?_⟩
  · intro h50
    simp only [twenty_week_roc, if_pos h50]
  · intro h50
    have hng : ¬ 50 ≤ (twenty_week_data hist).length := by omega
    simp only [twenty_week_roc, if_neg hng]

/-- Witness for C6 at a one-bar history (window below the threshold). -/
theorem stock_data_window_witness :
    ∃ row, get_stock_data "AAPL" "Apple Inc." (some [⟨10, 9⟩]) = some row ∧
      row.rocNum = 0 := by
  obtain ⟨row, hrow, hlen, _, _, _, _, _, hshort⟩ :=
    stock_data_window "AAPL" "Apple Inc." [⟨10, 9⟩] (by simp)
  refine ⟨row, hrow, hshort ?_⟩
  rw [hlen]
  decide

/-- C7: with at least 2 reference closes the regime is `UP` when the daily
change `(last - prior) / prior * 100` exceeds `0.1`, `DOWN` when it is
below `-0.1`, and `FLAT` otherwise; in particular closes `[200, 198]`
(a `-1.0` percent change) classify as `DOWN`. -/
theorem regime_classification :
    (∀ closes : List ℚ, 2 ≤ closes.length →
      get_regime_filter (Outcome.ok closes) =
        (if (closes.getD (closes.length - 1) 0 - closes.getD (closes.length - 2) 0) /
              closes.getD (closes.length - 2) 0 * 100 > 1 / 10 then Regime.UP
         else if (closes.getD (closes.length - 1) 0 - closes.getD (closes.length - 2) 0) /
              closes.getD (closes.length - 2) 0 * 100 < -(1 / 10) then Regime.DOWN
         else Regime.FLAT)) ∧
    get_regime_filter (Outcome.ok [200, 198]) = Regime.DOWN := by
  constructor
  · intro closes h2
    simp only [get_regime_filter]
    rw [if_neg (by omega)]
  · norm_num [get_regime_filter, List.getD]

/-- Witness for C7 at a rising pair of closes. -/
theorem regime_classification_witness :
    get_regime_filter (Outcome.ok [100, 102]) = Regime.UP := by
  rw [regime_classification.1 [100, 102] (by decide)]
  norm_num [List.getD]

/-- C8: `get_regime_filter` degrades every failure to `UNKNOWN` instead of
raising: a propagated fetch error (the `except` path), an absent history
(the `return None` path of the retry helper), and a history with fewer
than 2 bars all yield `UNKNOWN`. -/
theorem regime_never_raises :
    (∀ e, get_regime_filter (Outcome.raised e) = Regime.UNKNOWN) ∧
    get_regime_filter Outcome.noRes = Regime.UNKNOWN ∧
    (∀ closes : List ℚ, closes.length < 2 →
      get_regime_filter (Outcome.ok closes) = Regime.UNKNOWN) := by
  refine ⟨fun e => rfl, rfl, ?_⟩
  intro closes h2
  simp only [get_regime_filter]
  rw [if_pos h2]

/-- Witness for C8 at a concrete error and a one-bar history. -/
theorem regime_never_raises_witness :
    get_regime_filter (Outcome.raised "HTTP 429: too many requests") = Regime.UNKNOWN ∧
    get_regime_filter (Outcome.ok [200]) = Regime.UNKNOWN :=
  ⟨regime_never_raises.1 "HTTP 429: too many requests",
   regime_never_raises.2.2 [200] (by decide)⟩

/-- C9: the output table is sorted descending by the raw numeric
`_twenty_week_roc_num` value and is a permutation of the processed rows;
every row produced by `get_stock_data` stores the raw numeric daily-change
and rate-of-change values alongside the display strings formatted from
those same numerics. -/
theorem output_sorted_by_roc (rows : List StockRow) :
    (sortByRoc rows).Pairwise (fun a b => b.rocNum ≤ a.rocNum) ∧
    (sortByRoc rows).Perm rows ∧
    (∀ t c f row, get_stock_data t c f = some row →
      row.priceChangeStr = fmtSigned2 row.priceChangeNum ++ "%" ∧
      row.rocStr = fmtSigned2 row.rocNum ++ "%") := by
  refine ⟨?_, List.mergeSort_perm rows _, ?_⟩
  · have h := @List.sorted_mergeSort StockRow
      (fun a b : StockRow => decide (b.rocNum ≤ a.rocNum))
      (fun a b c hab hbc => by
        simp only [decide_eq_true_eq] at *
        exact le_trans hbc hab)
      (fun a b => by
        simp only [← Bool.decide_or, decide_eq_true_eq]
        exact le_total b.rocNum a.rocNum)
      rows
    simpa [sortByRoc] using h
  · intro t c f row h
    match f with
    | none => exact absurd h (by simp [get_stock_data])
    | some hist =>
      have hne : hist ≠ [] := by
        intro hn
        rw [hn] at h
        exact absurd h (by simp [get_stock_data])
      rw [get_stock_data_some t c hist hne] at h
      obtain rfl := Option.some.inj h
      exact ⟨rfl, rfl⟩

/-- Witness for C9 at a concrete row list and a concrete fetched history. -/
theorem output_sorted_by_roc_witness :
    ((sortByRoc []).Pairwise fun a b => b.rocNum ≤ a.rocNum) ∧
    (∃ row, get_stock_data "MSFT" "Microsoft" (some [⟨300, 295⟩, ⟨310, 305⟩]) = some row ∧
      row.priceChangeStr = fmtSigned2 row.priceChangeNum ++ "%") := by
  refine ⟨(output_sorted_by_roc []).1, ?_⟩
  obtain ⟨h1, _⟩ := (output_sorted_by_roc []).2.2 "MSFT" "Microsoft"
    (some [⟨300, 295⟩, ⟨310, 305⟩]) _ (get_stock_data_some _ _ _ (by simp))
  exact ⟨_, get_stock_data_some _ _ _ (by simp), h1⟩

/-- C10: a successful scrape yields the symbol list with every `.`
normalized to `-`; any scrape failure yields the fixed hardcoded 10-symbol
fallback list instead of an exception. -/
theorem tickers_normalized_or_fallback (scraped : Except String (List String)) :
    (∀ ts, scraped = Except.ok ts →
      get_sp500_tickers scraped = ts.map normalizeTicker) ∧
    (∀ e, scraped = Except.error e →
      get_sp500_tickers scraped = fallback_tickers) ∧
    (∀ s : String, ('.' : Char) ∉ (normalizeTicker s).toList) ∧
    fallback_tickers.length = 10 := by
  refine ⟨?_, ?_, ?_, rfl⟩
  · intro ts h
    rw [h]
    rfl
  · intro e h
    rw [h]
    rfl
  · intro s hmem
    have hl : (normalizeTicker s).toList =
        s.toList.map (fun c => if c = '.' then '-' else c) := rfl
    rw [hl, List.mem_map] at hmem
    obtain ⟨c, _, hc⟩ := hmem
    by_cases hdot : c = '.'
    · rw [if_pos hdot] at hc
      exact absurd hc (by decide)
    · rw [if_neg hdot] at hc
      exact hdot hc

/-- Witness for C10 at a concrete scrape result and a concrete failure. -/
theorem tickers_normalized_or_fallback_witness :
    get_sp500_tickers (Except.ok ["BRK.B", "AAPL"]) = ["BRK-B", "AAPL"] ∧
    get_sp500_tickers (Except.error "timeout") = fallback_tickers := by
  constructor
  · rw [(tickers_normalized_or_fallback (Except.ok ["BRK.B", "AAPL"])).1
      ["BRK.B", "AAPL"] rfl]
    decide
  · exact (tickers_normalized_or_fallback (Except.error "timeout")).2.1 "timeout" rfl

end SP500
